import Mathlib

/-!
Verification development for the `core_model_macros` schema compiler.

The definitions below are a shallow embedding of the crate's type model and
its three emitters (TypeScript static types, Zod runtime validators, JSON
Schema documents).  Emitted text is modelled as `List Char`; the JSON
documents produced at runtime by the generated `json_schema()` methods are
modelled by the inductive `JsonValue`.  Fallible macro expansion (the
`panic!` calls in the source) is modelled with `Except`.

Source files referenced throughout: `src/field_type.rs`, `src/model_schema.rs`,
`src/utils.rs`, `src/features/{model_schema_prop,serde,zod,object_id,jsonschema}.rs`.
-/

/-- Text of the host language (Rust `String`), modelled as a list of characters. -/
abbrev Str := List Char

/-- Join a list of strings with a separator, as Rust's `Vec::join`. -/
def joinSep (sep : Str) : List Str → Str
  | [] => []
  | [x] => x
  | x :: xs => x ++ sep ++ joinSep sep xs

/-- Decimal rendering of a natural number (Rust's `{n}` formatting of `usize`). -/
def nat_to_str (n : Nat) : Str := (Nat.repr n).data

/-- Metadata parsed from `model_schema_prop` attributes
(`features/model_schema_prop.rs`, `ModelSchemaPropMeta`). -/
structure ModelSchemaPropMeta where
  as_type : Option Str
  literal : Option Str
  min_length : Option Nat

/-- Metadata parsed from serde attributes on a field
(`field_type.rs`, `SerdeFieldMeta`). -/
structure SerdeFieldMeta where
  rename : Option Str
  skip : Bool

mutual

/-- Shape of a field (`field_type.rs`, `FieldDefType`).  The shipped
`field_type.rs` snapshot predates the `StringLiteral` and `ObjectId`
variants, but `model_schema.rs` pattern-matches on both
(`FieldDefType::StringLiteral` in `process_field`/`build_field_schema`,
`FieldDefType::ObjectId` behind the `object_id` feature), so they are part
of the crate's real enum and are included here. -/
inductive FieldDefType where
  | Unknown : FieldDefType
  | SiblingType : Str → List FieldDef → FieldDefType
  | Map : FieldDef → FieldDef → FieldDefType
  | Tuple : List FieldDef → FieldDefType
  | Boolean : FieldDefType
  | String : FieldDefType
  | U8 : FieldDefType
  | U16 : FieldDefType
  | U32 : FieldDefType
  | U64 : FieldDefType
  | I8 : FieldDefType
  | I16 : FieldDefType
  | I32 : FieldDefType
  | I64 : FieldDefType
  | Usize : FieldDefType
  | Isize : FieldDefType
  | F32 : FieldDefType
  | F64 : FieldDefType
  | StringLiteral : Str → FieldDefType
  | ObjectId : FieldDefType

/-- Normalized representation of one field (`field_type.rs`, `FieldDef`).
Constructor argument order follows the source struct:
`is_optional`, `name`, `docs`, `field_type`, `is_array`, `array_num`,
plus `model_schema_prop_meta` which `process_field` in `model_schema.rs`
assigns (the shipped `field_type.rs` snapshot predates that field). -/
inductive FieldDef where
  | mk : Bool → Str → Str → FieldDefType → Bool → Option Nat →
      Option ModelSchemaPropMeta → FieldDef

end

def FieldDef.is_optional : FieldDef → Bool
  | .mk o _ _ _ _ _ _ => o

def FieldDef.name : FieldDef → Str
  | .mk _ n _ _ _ _ _ => n

def FieldDef.docs : FieldDef → Str
  | .mk _ _ d _ _ _ _ => d

def FieldDef.field_type : FieldDef → FieldDefType
  | .mk _ _ _ t _ _ _ => t

def FieldDef.is_array : FieldDef → Bool
  | .mk _ _ _ _ a _ _ => a

def FieldDef.array_num : FieldDef → Option Nat
  | .mk _ _ _ _ _ an _ => an

def FieldDef.model_schema_prop_meta : FieldDef → Option ModelSchemaPropMeta
  | .mk _ _ _ _ _ _ m => m

def FieldDef.withName : FieldDef → Str → FieldDef
  | .mk o _ d t a an m, n => .mk o n d t a an m

def FieldDef.withIsOptional : FieldDef → Bool → FieldDef
  | .mk _ n d t a an m, o => .mk o n d t a an m

def FieldDef.withIsArray : FieldDef → Bool → FieldDef
  | .mk o n d t _ an m, a => .mk o n d t a an m

def FieldDef.withArrayNum : FieldDef → Option Nat → FieldDef
  | .mk o n d t a _ m, an => .mk o n d t a an m

def FieldDef.withMsp : FieldDef → Option ModelSchemaPropMeta → FieldDef
  | .mk o n d t a an _, m => .mk o n d t a an m

def FieldDef.withFieldType : FieldDef → FieldDefType → FieldDef
  | .mk o n d _ a an m, t => .mk o n d t a an m

/-- Effective minimum-length override of a field (reads the
`model_schema_prop` metadata attached by `process_field`). -/
def FieldDef.minLength (f : FieldDef) : Option Nat :=
  (f.model_schema_prop_meta).bind (fun m => m.min_length)

/-- Strip the `Json` marker suffix from a type name (`utils.rs`, `safe_type_name`). -/
def safe_type_name (key : Str) : Str :=
  if ("Json".data).isSuffixOf key then key.take (key.length - 4) else key

mutual

/-- Subset of `syn::Type` consumed by `get_field_def` (`field_type.rs`).
`other` stands for the `BareFn`/`ImplTrait`/... fallback arm.  A `path`
carries the last segment's identifier and its arguments (the source's
no-segment fallback is unreachable for parseable Rust types and is omitted). -/
inductive RustType where
  | path : Str → PathArgs → RustType
  | reference : RustType → RustType
  | array : RustType → RustType
  | slice : RustType → RustType
  | tuple : List RustType → RustType
  | other : RustType

/-- Arguments of the last path segment (`syn::PathArguments`). -/
inductive PathArgs where
  | noArgs : PathArgs
  | angleBracketed : List GenericArg → PathArgs
  | parenthesized : PathArgs

/-- One generic argument (`syn::GenericArgument`); lifetimes and const
generics are skipped by the source's `filter_map`. -/
inductive GenericArg where
  | tp : RustType → GenericArg
  | lifetime : GenericArg

end

/-- Lookup table from a bare type name to its shape
(`field_type.rs`, `get_field_def_type_or_sibling`).  The `ObjectId` arm is
the `object_id` feature's exact-name detection
(`features/object_id.rs`, `is_object_id_type`/`get_object_id_field_type`);
its wiring into this lookup is absent from the shipped `field_type.rs`
snapshot but is modelled here because `build_field_schema` and the feature
module both require it. -/
def get_field_def_type_or_sibling (t_name : Str) : FieldDefType :=
  if t_name = ("bool".data) then .Boolean
  else if t_name = ("String".data) then .String
  else if t_name = ("u8".data) then .U8
  else if t_name = ("u16".data) then .U16
  else if t_name = ("u32".data) then .U32
  else if t_name = ("u64".data) then .U64
  else if t_name = ("i8".data) then .I8
  else if t_name = ("i16".data) then .I16
  else if t_name = ("i32".data) then .I32
  else if t_name = ("i64".data) then .I64
  else if t_name = ("usize".data) then .Usize
  else if t_name = ("isize".data) then .Isize
  else if t_name = ("f32".data) then .F32
  else if t_name = ("f64".data) then .F64
  else if t_name = ("ObjectId".data) then .ObjectId
  else if ("Json".data).isSuffixOf t_name then .SiblingType (safe_type_name t_name) []
  else .SiblingType t_name []

mutual

/-- Type resolution (`field_type.rs`, `get_field_def`).  The source's one
`panic!("Unsupported field type")` (parenthesized path arguments) is
modelled as `Except.error`; every other arm returns a `FieldDef`. -/
def get_field_def (name : Str) (ty : RustType) (field_docs : Str) :
    Except Str FieldDef :=
  let safe_name := safe_type_name name
  match ty with
  | .path segName args =>
    match args with
    | .noArgs =>
      .ok (.mk false safe_name field_docs (get_field_def_type_or_sibling segName)
        false none none)
    | .angleBracketed gargs =>
      match getFieldDefArgs gargs with
      | .error e => .error e
      | .ok arg_types =>
        match arg_types with
        | [] =>
          .ok (.mk false safe_name field_docs (.SiblingType segName []) false none none)
        | [a] =>
          if segName = ("Option".data) then
            .ok ((a.withName safe_name).withIsOptional true)
          else if segName = ("Vec".data) then
            .ok ((a.withName safe_name).withIsArray true)
          else
            .ok (.mk false safe_name field_docs (.SiblingType segName [a]) false none none)
        | [a, b] =>
          if segName = ("HashMap".data) then
            .ok (.mk false safe_name field_docs (.Map a b) false none none)
          else
            .ok (.mk false safe_name field_docs (.SiblingType segName [a, b]) false none none)
        | more =>
          .ok (.mk false safe_name field_docs (.SiblingType segName more) false none none)
    | .parenthesized => .error ("Unsupported field type".data)
  | .reference elem => get_field_def name elem field_docs
  | .array elem =>
    match get_field_def name elem field_docs with
    | .error e => .error e
    | .ok d => .ok ((d.withIsArray true).withArrayNum none)
  | .slice elem =>
    match get_field_def name elem field_docs with
    | .error e => .error e
    | .ok d => .ok ((d.withIsArray true).withArrayNum none)
  | .tuple elems =>
    match getFieldDefTuple 0 field_docs elems with
    | .error e => .error e
    | .ok els => .ok (.mk false safe_name field_docs (.Tuple els) false none none)
  | .other => .ok (.mk false safe_name field_docs .Unknown false none none)

/-- Resolution of a generic-argument list: the source's
`filter_map`-then-collect over `args.args`, each type argument resolved by
`get_field_def("", inner_ty, "")`. -/
def getFieldDefArgs : List GenericArg → Except Str (List FieldDef)
  | [] => .ok []
  | .lifetime :: rest => getFieldDefArgs rest
  | .tp t :: rest =>
    match get_field_def [] t [] with
    | .error e => .error e
    | .ok d =>
      match getFieldDefArgs rest with
      | .error e => .error e
      | .ok ds => .ok (d :: ds)

/-- Resolution of tuple elements with synthesized names `element_{idx}`;
the enclosing field's docs are passed through unchanged, as in the source. -/
def getFieldDefTuple (idx : Nat) (field_docs : Str) :
    List RustType → Except Str (List FieldDef)
  | [] => .ok []
  | t :: ts =>
    match get_field_def (("element_".data) ++ nat_to_str idx) t field_docs with
    | .error e => .error e
    | .ok d =>
      match getFieldDefTuple (idx + 1) field_docs ts with
      | .error e => .error e
      | .ok ds => .ok (d :: ds)

end

/-- Snake-case to camel-case conversion used by the emission pipeline
(`model_schema.rs`, `snake_to_camel`): the first character is forced to
lower case, a character following an underscore is upper-cased, underscores
are dropped.  `i` is the enumeration index, `cap` the `capitalize_next` flag. -/
def snake_to_camel_aux : List Char → Nat → Bool → Str
  | [], _, _ => []
  | c :: rest, i, cap =>
    if c = '_' then snake_to_camel_aux rest (i + 1) true
    else if i = 0 then Char.toLower c :: snake_to_camel_aux rest (i + 1) cap
    else if cap then Char.toUpper c :: snake_to_camel_aux rest (i + 1) false
    else c :: snake_to_camel_aux rest (i + 1) cap

/-- Snake-case to camel-case conversion (`model_schema.rs`, `snake_to_camel`). -/
def snake_to_camel (s : Str) : Str := snake_to_camel_aux s 0 false

/-- Final name of a field or variant (`model_schema.rs`, `get_final_name`):
an explicit serde rename wins; otherwise only the `camelCase` and
`lowercase` container conventions transform the name; any other value (or
no convention) leaves the name unchanged.  Rust's Unicode `to_lowercase`
is modelled by `Char.toLower`. -/
def get_final_name (name : Str) (field_rename : Option Str)
    (rename_all : Option Str) : Str :=
  match field_rename with
  | some rename => rename
  | none =>
    if rename_all = some ("camelCase".data) then snake_to_camel name
    else if rename_all = some ("lowercase".data) then name.map Char.toLower
    else name

/-- Camel-case helper of the test-only serde module
(`features/serde.rs`, `to_camel_case`); unlike `snake_to_camel` it never
lower-cases the first character. -/
def to_camel_case_aux : List Char → Nat → Bool → Str
  | [], _, _ => []
  | c :: rest, i, cap =>
    if c = '_' then to_camel_case_aux rest (i + 1) true
    else if cap && 0 < i then Char.toUpper c :: to_camel_case_aux rest (i + 1) false
    else c :: to_camel_case_aux rest (i + 1) false

/-- Camel-case conversion of the test-only serde module (`features/serde.rs`). -/
def to_camel_case (s : Str) : Str := to_camel_case_aux s 0 false

/-- Pascal-case conversion of the test-only serde module (`features/serde.rs`,
`to_pascal_case`): camel case with the first character upper-cased. -/
def to_pascal_case (s : Str) : Str :=
  match to_camel_case s with
  | [] => []
  | c :: rest => Char.toUpper c :: rest

/-- Kebab-case conversion of the test-only serde module (`features/serde.rs`,
`to_kebab_case`): every underscore becomes a hyphen. -/
def to_kebab_case (s : Str) : Str :=
  s.map (fun c => if c = '_' then '-' else c)

/-- Rename-all application of the test-only serde module
(`features/serde.rs`, `apply_rename_all`, compiled under `#[cfg(test)]`
only); it supports all seven conventions, unlike `get_final_name` above. -/
def apply_rename_all (field_name : Str) (rename_all : Option Str) : Str :=
  if rename_all = some ("camelCase".data) then to_camel_case field_name
  else if rename_all = some ("PascalCase".data) then to_pascal_case field_name
  else if rename_all = some ("snake_case".data) then field_name
  else if rename_all = some ("SCREAMING_SNAKE_CASE".data) then field_name.map Char.toUpper
  else if rename_all = some ("kebab-case".data) then to_kebab_case field_name
  else if rename_all = some ("lowercase".data) then field_name.map Char.toLower
  else if rename_all = some ("UPPERCASE".data) then field_name.map Char.toUpper
  else field_name

mutual

/-- Static-type emitter (`field_type.rs`, `FieldDef::typescript_typename`):
renders the base shape, wraps `Array<...>` when `is_array`, then appends
the absence marker `| undefined` when `is_optional`.  The `StringLiteral`
arm renders the quoted literal as a type and the `ObjectId` arm renders the
external type name (`features/object_id.rs`, `get_object_id_typescript_type`);
both arms are exercised by `model_schema.rs` though the shipped
`field_type.rs` snapshot predates them. -/
def typescript_typename (f : FieldDef) : Str :=
  match f with
  | .mk o _ _ ft a _ _ =>
    let result := typescript_base ft
    let pre_result := if a then ("Array<".data) ++ result ++ (">".data) else result
    if o then pre_result ++ (" | undefined".data) else pre_result

/-- Base (unwrapped) static-type text of a shape. -/
def typescript_base : FieldDefType → Str
  | .Unknown => "unknown".data
  | .Tuple lst => ("\x7b ".data) ++ joinSep ("; ".data) (tupleTsParts lst) ++ (" \x7d".data)
  | .SiblingType nm lst =>
    match lst with
    | [] => nm
    | _ => nm ++ ("<".data) ++ joinSep (", ".data) (tsArgParts lst) ++ (">".data)
  | .Map k v =>
    ("Partial<Record<".data) ++ typescript_typename k ++ (", ".data) ++
      typescript_typename v ++ (">>".data)
  | .Boolean => "boolean".data
  | .String => "string".data
  | .U8 => "number".data
  | .U16 => "number".data
  | .U32 => "number".data
  | .U64 => "number".data
  | .I8 => "number".data
  | .I16 => "number".data
  | .I32 => "number".data
  | .I64 => "number".data
  | .Usize => "number".data
  | .Isize => "number".data
  | .F32 => "number".data
  | .F64 => "number".data
  | .StringLiteral v => ("\"".data) ++ v ++ ("\"".data)
  | .ObjectId => "ObjectId".data

/-- Tuple elements rendered as `name: type` parts. -/
def tupleTsParts : List FieldDef → List Str
  | [] => []
  | f :: fs => (f.name ++ (": ".data) ++ typescript_typename f) :: tupleTsParts fs

/-- Generic arguments rendered as types. -/
def tsArgParts : List FieldDef → List Str
  | [] => []
  | f :: fs => typescript_typename f :: tsArgParts fs

end

/-- Array wrap of a validator expression (`features/zod.rs`,
`wrap_with_array_if_needed`). -/
def wrap_with_array_if_needed (schema : Str) (is_array : Bool) : Str :=
  if is_array then ("z.array(".data) ++ schema ++ (")".data) else schema

/-- Optionality wrap of a validator expression (`features/zod.rs`,
`wrap_with_optional_if_needed`). -/
def wrap_with_optional_if_needed (schema : Str) (is_optional : Bool) : Str :=
  if is_optional then schema ++ (".or(z.undefined())".data) else schema

/-- Zod validator text for the opaque identifier type
(`features/object_id.rs`, `get_object_id_zod_schema`). -/
def object_id_zod_schema : Str :=
  ("z.object(\x7b $oid: z.string().regex(/^[a-f\\d]\x7b24\x7d$/i, \x7b message: \"Invalid ObjectId\" \x7d) \x7d)".data)

mutual

/-- Runtime-validator emitter (`field_type.rs`, `FieldDef::zod_type`,
completed with the arms the shipped snapshot predates): base validator per
shape, then — modelled from the spec (§4.5), matching the crate's tests —
a `.min(n)` assertion when the shape is `String` and a `minLength` override
is attached, then the array and optionality wraps of `features/zod.rs`
(`z.array(...)` and `.or(z.undefined())`).  The `StringLiteral` arm emits a
constant-value validator (`z.literal("...")`, as in `generate_variant_code`
and the crate's tests) and the `ObjectId` arm emits the feature module's
validator. -/
def zod_type (f : FieldDef) : Str :=
  match f with
  | .mk o _ _ ft a _ msp =>
    let result := zod_base ft
    let result :=
      match ft, msp.bind (fun m => m.min_length) with
      | .String, some n => result ++ (".min(".data) ++ nat_to_str n ++ (")".data)
      | _, _ => result
    wrap_with_optional_if_needed (wrap_with_array_if_needed result a) o

/-- Base (unwrapped) validator text of a shape. -/
def zod_base : FieldDefType → Str
  | .Unknown => "z.unknown()".data
  | .Tuple lst => ("\x7b ".data) ++ joinSep ("; ".data) (tupleZodParts lst) ++ (" \x7d".data)
  | .SiblingType nm lst =>
    match lst with
    | [] => nm ++ ("$Schema".data)
    | _ => nm ++ ("<".data) ++ joinSep (", ".data) (tsArgParts lst) ++ (">".data)
  | .Map k v =>
    ("z.record(".data) ++ zod_type k ++ (", ".data) ++ zod_type v ++ (")".data)
  | .Boolean => "z.boolean()".data
  | .String => "z.string()".data
  | .U8 => "z.number().int()".data
  | .U16 => "z.number().int()".data
  | .U32 => "z.number().int()".data
  | .U64 => "z.number().int()".data
  | .I8 => "z.number().int()".data
  | .I16 => "z.number().int()".data
  | .I32 => "z.number().int()".data
  | .I64 => "z.number().int()".data
  | .Usize => "z.number().int()".data
  | .Isize => "z.number().int()".data
  | .F32 => "z.number()".data
  | .F64 => "z.number()".data
  | .StringLiteral v => ("z.literal(\"".data) ++ v ++ ("\")".data)
  | .ObjectId => object_id_zod_schema

/-- Tuple elements rendered as `name: validator` parts. -/
def tupleZodParts : List FieldDef → List Str
  | [] => []
  | f :: fs => (f.name ++ (": ".data) ++ zod_type f) :: tupleZodParts fs

end

/-- Runtime JSON document (`serde_json::Value`) as built by the generated
`json_schema()` methods.  Objects keep insertion order (none of the
properties proved below depend on `serde_json`'s key ordering).  Two
symbolic constructors model the emitter's cross-type capability calls:
`schemaRef ident` stands for the generated call `ident::json_schema()`, and
`enumKeyedMap keyIdent valueIdent` stands for the closed-map-over-enum-keys
document built from `keyIdent::enum_members()` with `valueIdent::json_schema()`
as every value schema (and `additionalProperties: false`). -/
inductive JsonValue where
  | str : Str → JsonValue
  | bool : Bool → JsonValue
  | num : Nat → JsonValue
  | arr : List JsonValue → JsonValue
  | obj : List (Str × JsonValue) → JsonValue
  | schemaRef : Str → JsonValue
  | enumKeyedMap : Str → Str → JsonValue

mutual

/-- Whether a key occurs in any object anywhere inside a document. -/
def JsonValue.hasKeyDeep (k : Str) : JsonValue → Bool
  | .obj kvs => jsonObjHasKey k kvs
  | .arr xs => jsonArrHasKey k xs
  | _ => false

/-- Key search over the bindings of one object. -/
def jsonObjHasKey (k : Str) : List (Str × JsonValue) → Bool
  | [] => false
  | (k2, v) :: rest => k2 == k || JsonValue.hasKeyDeep k v || jsonObjHasKey k rest

/-- Key search over the elements of an array. -/
def jsonArrHasKey (k : Str) : List JsonValue → Bool
  | [] => false
  | v :: rest => JsonValue.hasKeyDeep k v || jsonArrHasKey k rest

end

/-- Shorthand for the `json!({"type": t})` documents of `build_field_schema`. -/
def typeObj (t : Str) : JsonValue := .obj [(("type".data), .str t)]

/-- Shorthand for `json!({"type": "array", "items": inner})`. -/
def arrayOf (inner : JsonValue) : JsonValue :=
  .obj [(("type".data), .str ("array".data)), (("items".data), inner)]

/-- Shorthand for `json!({"type": "object", "additionalProperties": v})`. -/
def mapWithValues (v : JsonValue) : JsonValue :=
  .obj [(("type".data), .str ("object".data)), (("additionalProperties".data), v)]

/-- The permissive `{"type": "object", "additionalProperties": true}` fallback. -/
def permissiveMapJson : JsonValue := mapWithValues (.bool true)

/-- JSON Schema of the opaque identifier type
(`features/object_id.rs`, `get_object_id_json_schema`, matching the
`FieldDefType::ObjectId` arms of `build_field_schema`): a one-field wrapper
whose `$oid` member is an unconstrained string. -/
def object_id_json_schema : JsonValue :=
  .obj [(("type".data), .str ("object".data)),
    (("properties".data), .obj [(("$oid".data), typeObj ("string".data))]),
    (("required".data), .arr [.str ("$oid".data)]),
    (("additionalProperties".data), .bool false)]

/-- Whether a shape is `FieldDefType::String`
(the source's `matches!(..., FieldDefType::String)`). -/
def isStringShape : FieldDefType → Bool
  | .String => true
  | _ => false

/-- Value schema of the inner map in the `Vec<HashMap<String, T>>` special
case of `build_field_schema` (`model_schema.rs` lines 900-936); this copy
of the table has an `ObjectId` arm. -/
def innerMapValueSchemaA (iv : FieldDef) : JsonValue :=
  match iv.field_type with
  | .U8 => typeObj ("integer".data)
  | .U16 => typeObj ("integer".data)
  | .U32 => typeObj ("integer".data)
  | .U64 => typeObj ("integer".data)
  | .I8 => typeObj ("integer".data)
  | .I16 => typeObj ("integer".data)
  | .I32 => typeObj ("integer".data)
  | .I64 => typeObj ("integer".data)
  | .Usize => typeObj ("integer".data)
  | .Isize => typeObj ("integer".data)
  | .F32 => typeObj ("number".data)
  | .F64 => typeObj ("number".data)
  | .String => typeObj ("string".data)
  | .Boolean => typeObj ("boolean".data)
  | .ObjectId => object_id_json_schema
  | _ => .bool true

/-- Value schema of the inner map in the `SiblingType("Vec", [Map(..)])`
branch of `build_field_schema` (`model_schema.rs` lines 979-1004); this
copy of the table has no `ObjectId` arm. -/
def innerMapValueSchemaB (iv : FieldDef) : JsonValue :=
  match iv.field_type with
  | .U8 => typeObj ("integer".data)
  | .U16 => typeObj ("integer".data)
  | .U32 => typeObj ("integer".data)
  | .U64 => typeObj ("integer".data)
  | .I8 => typeObj ("integer".data)
  | .I16 => typeObj ("integer".data)
  | .I32 => typeObj ("integer".data)
  | .I64 => typeObj ("integer".data)
  | .Usize => typeObj ("integer".data)
  | .Isize => typeObj ("integer".data)
  | .F32 => typeObj ("number".data)
  | .F64 => typeObj ("number".data)
  | .String => typeObj ("string".data)
  | .Boolean => typeObj ("boolean".data)
  | _ => .bool true

/-- Property schema for a map value in the string-keyed arm of
`build_field_schema`'s `FieldDefType::Map` case (`model_schema.rs`
lines 737-1148).  All arms are total; the structure mirrors the source's
nested matches, including its quirks (the `Vec`-sibling branch ignores the
value's own `is_array` flag; unrecognized values fall back to the
permissive map). -/
def mapValueSchema (v : FieldDef) : JsonValue :=
  match v.field_type with
  | .String =>
    mapWithValues (if v.is_array then arrayOf (typeObj ("string".data))
      else typeObj ("string".data))
  | .U8 => mapWithValues (if v.is_array then arrayOf (typeObj ("integer".data))
      else typeObj ("integer".data))
  | .U16 => mapWithValues (if v.is_array then arrayOf (typeObj ("integer".data))
      else typeObj ("integer".data))
  | .U32 => mapWithValues (if v.is_array then arrayOf (typeObj ("integer".data))
      else typeObj ("integer".data))
  | .U64 => mapWithValues (if v.is_array then arrayOf (typeObj ("integer".data))
      else typeObj ("integer".data))
  | .I8 => mapWithValues (if v.is_array then arrayOf (typeObj ("integer".data))
      else typeObj ("integer".data))
  | .I16 => mapWithValues (if v.is_array then arrayOf (typeObj ("integer".data))
      else typeObj ("integer".data))
  | .I32 => mapWithValues (if v.is_array then arrayOf (typeObj ("integer".data))
      else typeObj ("integer".data))
  | .I64 => mapWithValues (if v.is_array then arrayOf (typeObj ("integer".data))
      else typeObj ("integer".data))
  | .Usize => mapWithValues (if v.is_array then arrayOf (typeObj ("integer".data))
      else typeObj ("integer".data))
  | .Isize => mapWithValues (if v.is_array then arrayOf (typeObj ("integer".data))
      else typeObj ("integer".data))
  | .F32 => mapWithValues (if v.is_array then arrayOf (typeObj ("number".data))
      else typeObj ("number".data))
  | .F64 => mapWithValues (if v.is_array then arrayOf (typeObj ("number".data))
      else typeObj ("number".data))
  | .Boolean => mapWithValues (if v.is_array then arrayOf (typeObj ("boolean".data))
      else typeObj ("boolean".data))
  | .ObjectId => mapWithValues (if v.is_array then arrayOf object_id_json_schema
      else object_id_json_schema)
  | .Map ik iv =>
    if v.is_array && isStringShape ik.field_type then
      mapWithValues (arrayOf (mapWithValues (innerMapValueSchemaA iv)))
    else permissiveMapJson
  | .SiblingType vname vargs =>
    match vargs with
    | [inner] =>
      if vname = ("Vec".data) then
        match inner.field_type with
        | .Map ik iv =>
          match ik.field_type with
          | .String => mapWithValues (arrayOf (mapWithValues (innerMapValueSchemaB iv)))
          | _ => permissiveMapJson
        | .U8 => mapWithValues (arrayOf (typeObj ("integer".data)))
        | .U16 => mapWithValues (arrayOf (typeObj ("integer".data)))
        | .U32 => mapWithValues (arrayOf (typeObj ("integer".data)))
        | .U64 => mapWithValues (arrayOf (typeObj ("integer".data)))
        | .I8 => mapWithValues (arrayOf (typeObj ("integer".data)))
        | .I16 => mapWithValues (arrayOf (typeObj ("integer".data)))
        | .I32 => mapWithValues (arrayOf (typeObj ("integer".data)))
        | .I64 => mapWithValues (arrayOf (typeObj ("integer".data)))
        | .Usize => mapWithValues (arrayOf (typeObj ("integer".data)))
        | .Isize => mapWithValues (arrayOf (typeObj ("integer".data)))
        | .F32 => mapWithValues (arrayOf (typeObj ("number".data)))
        | .F64 => mapWithValues (arrayOf (typeObj ("number".data)))
        | .String => mapWithValues (arrayOf (typeObj ("string".data)))
        | .Boolean => mapWithValues (arrayOf (typeObj ("boolean".data)))
        | .ObjectId => mapWithValues (arrayOf object_id_json_schema)
        | _ => permissiveMapJson
      else permissiveMapJson
    | _ => permissiveMapJson
  | _ => permissiveMapJson

/-- Property schema of the `FieldDefType::Map` arm of `build_field_schema`:
string keys dispatch on the value type; an argument-free sibling key type
triggers the closed-map-over-enum-keys case, which panics
(`panic!("Unsupported map value type: ...")`) unless the value is also an
argument-free sibling; any other key falls back to the permissive map.
Note the arm never consults the field's own `is_array` flag. -/
def mapPropertySchema (k v : FieldDef) : Except Str JsonValue :=
  match k.field_type with
  | .String => .ok (mapValueSchema v)
  | .SiblingType keyName lst =>
    match lst with
    | [] =>
      match v.field_type with
      | .SiblingType valueName vlst =>
        match vlst with
        | [] => .ok (.enumKeyedMap (keyName ++ ("Json".data)) (valueName ++ ("Json".data)))
        | _ => .error ("Unsupported map value type".data)
      | _ => .error ("Unsupported map value type".data)
    | _ => .ok permissiveMapJson
  | _ => .ok permissiveMapJson

/-- Array wrapper used by the argument-free sibling arm
(`model_schema.rs`, `generate_type_schema`). -/
def generate_type_schema (fld : FieldDef) (inner : JsonValue) : JsonValue :=
  if fld.is_array then arrayOf inner else inner

/-- Property value inserted for one field by the code that
`build_field_schema` (`model_schema.rs` lines 543-1234) generates.  The
source's two `panic!` calls become `Except.error`.  The `minLength`
keyword on the plain-string arm is modelled from the spec (§4.6: a
minimum-length override adds `minLength` alongside `{type: "string"}`, as
the crate's tests require); the shipped snapshot of the arm predates it.
The catch-all arm (`Unknown`/`Tuple`) delegates to `{field_name}Json::json_schema()`
— note the source builds that identifier from the field's name. -/
def fieldPropertyValue (fld : FieldDef) : Except Str JsonValue :=
  match fld.field_type with
  | .String =>
    let base :=
      match fld.minLength with
      | some n => .obj [(("type".data), .str ("string".data)), (("minLength".data), .num n)]
      | none => typeObj ("string".data)
    .ok (if fld.is_array then arrayOf base else base)
  | .StringLiteral v =>
    let base : JsonValue :=
      .obj [(("type".data), .str ("string".data)), (("const".data), .str v)]
    .ok (if fld.is_array then arrayOf base else base)
  | .U8 => .ok (if fld.is_array then arrayOf (typeObj ("integer".data)) else typeObj ("integer".data))
  | .U16 => .ok (if fld.is_array then arrayOf (typeObj ("integer".data)) else typeObj ("integer".data))
  | .U32 => .ok (if fld.is_array then arrayOf (typeObj ("integer".data)) else typeObj ("integer".data))
  | .U64 => .ok (if fld.is_array then arrayOf (typeObj ("integer".data)) else typeObj ("integer".data))
  | .I8 => .ok (if fld.is_array then arrayOf (typeObj ("integer".data)) else typeObj ("integer".data))
  | .I16 => .ok (if fld.is_array then arrayOf (typeObj ("integer".data)) else typeObj ("integer".data))
  | .I32 => .ok (if fld.is_array then arrayOf (typeObj ("integer".data)) else typeObj ("integer".data))
  | .I64 => .ok (if fld.is_array then arrayOf (typeObj ("integer".data)) else typeObj ("integer".data))
  | .Usize => .ok (if fld.is_array then arrayOf (typeObj ("integer".data)) else typeObj ("integer".data))
  | .Isize => .ok (if fld.is_array then arrayOf (typeObj ("integer".data)) else typeObj ("integer".data))
  | .F32 => .ok (if fld.is_array then arrayOf (typeObj ("number".data)) else typeObj ("number".data))
  | .F64 => .ok (if fld.is_array then arrayOf (typeObj ("number".data)) else typeObj ("number".data))
  | .Boolean => .ok (if fld.is_array then arrayOf (typeObj ("boolean".data)) else typeObj ("boolean".data))
  | .ObjectId => .ok (if fld.is_array then arrayOf object_id_json_schema else object_id_json_schema)
  | .SiblingType nm lst =>
    if (nm = ("Vec".data) || nm = ("HashSet".data)) && lst.length = 1 then
      .ok (arrayOf (typeObj ("string".data)))
    else if (nm = ("HashMap".data) || nm = ("BTreeMap".data)) && lst.length = 2 then
      .ok permissiveMapJson
    else if lst.isEmpty then
      .ok (generate_type_schema fld (.schemaRef (nm ++ ("Json".data))))
    else .error (("Unsupported generic type: ".data) ++ nm)
  | .Map k v => mapPropertySchema k v
  | _ => .ok (.schemaRef (fld.name ++ ("Json".data)))

/-- Accumulated `properties` bindings and `required` array while the
generated `json_schema()` body runs. -/
structure SchemaAcc where
  properties : List (Str × JsonValue)
  required : List JsonValue

/-- Effect of one field's generated code on the accumulator: insert the
property, then push the field's final name onto `required` unless the
field is optional (`build_field_schema`'s `required_code`). -/
def build_field_schema (fld : FieldDef) (acc : SchemaAcc) : Except Str SchemaAcc :=
  match fieldPropertyValue fld with
  | .error e => .error e
  | .ok v =>
    .ok ⟨acc.properties ++ [(fld.name, v)],
      acc.required ++ (if fld.is_optional then [] else [.str fld.name])⟩

/-- Sequential effect of a field list (the `#(#json_schema_fields)*` splice). -/
def buildFieldsSchema : List FieldDef → SchemaAcc → Except Str SchemaAcc
  | [], acc => .ok acc
  | f :: fs, acc =>
    match build_field_schema f acc with
    | .error e => .error e
    | .ok acc2 => buildFieldsSchema fs acc2

/-- Names of the non-optional fields, as pushed onto `required`. -/
def requiredNames (fields : List FieldDef) : List JsonValue :=
  (fields.filter (fun f => !f.is_optional)).map (fun f => .str f.name)

/-- The generated `json_schema()` of a record
(`features/jsonschema.rs`, `generate_struct_json_schema_method`). -/
def structJsonSchema (fields : List FieldDef) : Except Str JsonValue :=
  match buildFieldsSchema fields ⟨[], []⟩ with
  | .error e => .error e
  | .ok acc =>
    .ok (.obj [(("type".data), .str ("object".data)),
      (("additionalProperties".data), .bool false),
      (("properties".data), .obj acc.properties),
      (("required".data), .arr acc.required)])

/-- Doc-comment lines rendered with the `" * {l}"` prefix and joined by
newlines, as in `process_field`/`get_variant_docs` consumers.  Attribute
lines are modelled as already split (the source additionally flat-maps
embedded newlines); an empty trailing line is chained on, as in the source. -/
def formatDocLines (lines : List Str) : Str :=
  joinSep ("\n".data) (lines.map (fun l => (" * ".data) ++ l))

/-- Field documentation: the doc attribute's lines if present, otherwise the
final name, each with the trailing empty line the source chains on. -/
def fieldDocsOf (docsAttr : Option (List Str)) (final_name : Str) : Str :=
  match docsAttr with
  | some ls => formatDocLines (ls ++ [[]])
  | none => formatDocLines [final_name, []]

/-- Parsed input of one declared field, as handed to `process_field`: the
raw identifier, the raw type descriptor, the parsed serde field metadata
(`rename`, `skip`), the parsed `model_schema_prop` metadata and the doc
attribute lines. -/
structure FieldInput where
  ident : Str
  ty : RustType
  serde : SerdeFieldMeta
  msp : ModelSchemaPropMeta
  docsAttr : Option (List Str)

/-- Field processing (`model_schema.rs`, `process_field`): resolve the
final name (note only the parsed serde `rename` is consulted — the parsed
`skip` flag is never read), compute docs, resolve the type, attach the
`model_schema_prop` metadata when an `as` or `literal` override is present,
and force the shape to `StringLiteral` when a `literal` override is set. -/
def process_field (rename_all : Option Str) (field : FieldInput) :
    Except Str FieldDef :=
  let field_rename := field.serde.rename
  let final_name := get_final_name field.ident field_rename rename_all
  let field_docs := fieldDocsOf field.docsAttr final_name
  match get_field_def final_name field.ty field_docs with
  | .error e => .error e
  | .ok fd =>
    let fd := fd.withMsp
      (if field.msp.as_type.isSome || field.msp.literal.isSome then some field.msp else none)
    let fd :=
      match (fd.model_schema_prop_meta).bind (fun m => m.literal) with
      | some lit => fd.withFieldType (.StringLiteral lit)
      | none => fd
    .ok fd

/-- Monadic map over `Except`, as the source's fallible loops. -/
def exceptMapM (f : α → Except Str β) : List α → Except Str (List β)
  | [] => .ok []
  | x :: xs =>
    match f x with
    | .error e => .error e
    | .ok y =>
      match exceptMapM f xs with
      | .error e => .error e
      | .ok ys => .ok (y :: ys)

/-- Insertion into an association list with `HashMap::insert` semantics on
contents: an existing binding of the key is replaced.  The source iterates
its `HashMap` in unspecified order; this model fixes first-insertion order,
and none of the theorems below depend on entry order. -/
def hmInsert (k : Str) (v : α) : List (Str × α) → List (Str × α)
  | [] => [(k, v)]
  | (k2, v2) :: rest =>
    if k = k2 then (k, v) :: rest else (k2, v2) :: hmInsert k v rest

/-- Builds the `discriminator_field_defs` map by inserting each variant in
declaration order. -/
def hmFromList (ps : List (Str × α)) : List (Str × α) :=
  ps.foldl (fun m p => hmInsert p.1 p.2 m) []

/-- Parsed input of one enum variant: the raw identifier, the parsed serde
attributes of the variant, and its field list. -/
structure VariantInput where
  ident : Str
  serde : SerdeFieldMeta
  fields : List FieldInput

/-- Resolved (renamed) name of a variant (`process_discriminated_enum` /
`process_plain_enum` both resolve via `get_final_name`). -/
def processVariantName (rename_all : Option Str) (v : VariantInput) : Str :=
  get_final_name v.ident v.serde.rename rename_all

/-- First loop of `process_discriminated_enum`: resolve the variant's final
name and process its fields. -/
def processVariantPair (rename_all : Option Str) (v : VariantInput) :
    Except Str (Str × List FieldDef) :=
  match exceptMapM (process_field rename_all) v.fields with
  | .error e => .error e
  | .ok flds => .ok (processVariantName rename_all v, flds)

/-- The `{"type": "string", "const": value}` schema of a variant's tag
property (`generate_variant_code`). -/
def tagPropJson (value : Str) : JsonValue :=
  .obj [(("type".data), .str ("string".data)), (("const".data), .str value)]

/-- JSON part of `generate_variant_code` (`model_schema.rs` lines 440-540):
a closed object whose `properties` start with the tag property
`{type: "string", const: discriminator}`, whose `required` starts with the
tag name, and which then accumulates every variant field whose name differs
from the tag name. -/
def variantJsonSchema (tag_name value : Str) (fields : List FieldDef) :
    Except Str JsonValue :=
  match buildFieldsSchema (fields.filter (fun f => f.name ≠ tag_name))
      ⟨[(tag_name, tagPropJson value)], [.str tag_name]⟩ with
  | .error e => .error e
  | .ok acc =>
    .ok (.obj [(("additionalProperties".data), .bool false),
      (("properties".data), .obj acc.properties),
      (("required".data), .arr acc.required)])

/-- The generated `json_schema()` of a discriminated enum
(`process_discriminated_enum` plus
`generate_discriminated_enum_json_schema_method`): variants are keyed by
resolved name in the `discriminator_field_defs` map (later variants with
the same resolved name replace earlier ones), then each entry becomes one
`oneOf` element. -/
def discriminatedEnumJsonSchema (tag_name : Str) (rename_all : Option Str)
    (vs : List VariantInput) : Except Str JsonValue :=
  match exceptMapM (processVariantPair rename_all) vs with
  | .error e => .error e
  | .ok pairs =>
    match exceptMapM (fun p => variantJsonSchema tag_name p.1 p.2) (hmFromList pairs) with
    | .error e => .error e
    | .ok entries =>
      .ok (.obj [(("type".data), .str ("object".data)),
        (("oneOf".data), .arr entries)])

/-- Plain-enum detection (`field_type.rs`, `is_plain_enum`): every variant
is a unit variant. -/
def is_plain_enum (vs : List VariantInput) : Bool :=
  vs.all (fun v => v.fields.isEmpty)

/-- Default of the union tag name (`process_enum`): the container's
`#[serde(tag = ...)]` value, or the literal `"type"`. -/
def enumTagName (tag : Option Str) : Str := tag.getD ("type".data)

/-- The generated `json_schema()` of a plain enum
(`features/jsonschema.rs`, `generate_plain_enum_json_schema_method`):
`{"type": "string", "enum": [resolved variant names]}`. -/
def plainEnumJsonSchema (rename_all : Option Str) (vs : List VariantInput) : JsonValue :=
  .obj [(("type".data), .str ("string".data)),
    (("enum".data), .arr (vs.map (fun v => .str (processVariantName rename_all v))))]

/-- Enum dispatch of `process_enum`: plain enums short-circuit to the
string-enum schema, enums with field-carrying variants go through the
discriminated-union compiler with the (defaulted) tag name. -/
def processEnumJsonSchema (tag : Option Str) (rename_all : Option Str)
    (vs : List VariantInput) : Except Str JsonValue :=
  if is_plain_enum vs then .ok (plainEnumJsonSchema rename_all vs)
  else discriminatedEnumJsonSchema (enumTagName tag) rename_all vs

/-- The absence marker appended by `typescript_typename` to optional fields. -/
def tsAbsenceMarker : Str := "| undefined".data

/-- The fixed message of the source's only type-resolution `panic!`. -/
def unsupportedFieldTypeMsg : Str := "Unsupported field type".data

/-- Boolean success test for `Except`. -/
def isOkE : Except Str α → Bool
  | .ok _ => true
  | .error _ => false

mutual

/-- Whether a raw type descriptor contains parenthesized path arguments
anywhere (the one shape `get_field_def` aborts on). -/
def rtHasParen : RustType → Bool
  | .path _ args => paHasParen args
  | .reference e => rtHasParen e
  | .array e => rtHasParen e
  | .slice e => rtHasParen e
  | .tuple es => rtsHasParen es
  | .other => false

/-- Parenthesized-argument search over path arguments. -/
def paHasParen : PathArgs → Bool
  | .noArgs => false
  | .angleBracketed gs => gasHasParen gs
  | .parenthesized => true

/-- Parenthesized-argument search over a generic-argument list. -/
def gasHasParen : List GenericArg → Bool
  | [] => false
  | .tp t :: rest => rtHasParen t || gasHasParen rest
  | .lifetime :: rest => gasHasParen rest

/-- Parenthesized-argument search over a type list. -/
def rtsHasParen : List RustType → Bool
  | [] => false
  | t :: ts => rtHasParen t || rtsHasParen ts

end

/-- The hex pattern fragment of the opaque identifier's runtime validator. -/
def objectIdHexPattern : Str := "^[a-f\\d]\x7b24\x7d$".data

theorem marker_suffix_append (pre : Str) :
    tsAbsenceMarker <:+ pre ++ (" | undefined".data) := by
  have h : tsAbsenceMarker <:+ (" | undefined".data) := by decide
  exact h.trans (List.suffix_append pre _)

theorem getLast?_append_some (b : Char) (l r : Str) (hr : r.getLast? = some b) :
    (l ++ r).getLast? = some b := by
  rw [List.getLast?_append, hr]
  rfl

theorem not_marker_suffix_of_getLast? {t : Str} (b : Char) (hb : b ≠ 'd')
    (ht : t.getLast? = some b) : ¬ tsAbsenceMarker <:+ t := by
  intro hsuf
  obtain ⟨u, hu⟩ := hsuf
  apply hb
  have h2 : some b = some 'd' := by
    rw [← ht, ← hu, List.getLast?_append]
    rfl
  exact Option.some.inj h2

theorem not_marker_suffix_of_no_pipe (t : Str) (hp : '|' ∉ t) :
    ¬ tsAbsenceMarker <:+ t := by
  intro h
  exact hp (h.subset (by decide))

theorem buildFieldsSchema_acc (fs : List FieldDef) :
    ∀ acc acc2 : SchemaAcc, buildFieldsSchema fs acc = .ok acc2 →
      acc2.required = acc.required ++ requiredNames fs ∧
      ∃ tail, acc2.properties = acc.properties ++ tail := by
  induction fs with
  | nil =>
    intro acc acc2 h
    cases h
    exact ⟨by simp [requiredNames], [], by simp⟩
  | cons f fs ih =>
    intro acc acc2 h
    unfold buildFieldsSchema build_field_schema at h
    cases hv : fieldPropertyValue f with
    | error e => rw [hv] at h; cases h
    | ok v =>
      rw [hv] at h
      obtain ⟨hreq, tail, hprops⟩ := ih _ _ h
      refine ⟨?_, [(f.name, v)] ++ tail, by rw [hprops]; simp⟩
      rw [hreq]
      simp only [requiredNames, List.filter_cons]
      cases hopt : f.is_optional <;> simp [requiredNames, List.append_assoc]

/-- C1: for every record, the emitted JSON Schema's `required` array holds
exactly the final names of the non-optional fields in declaration order,
and the static-type text of a field ends in the absence marker
`| undefined` exactly when the field is optional (the well-formedness
hypothesis that a bare referenced type name contains no `|` character holds
for every Rust identifier). -/
theorem spec_c1_required_and_absence_marker :
    (∀ (fields : List FieldDef) (j : JsonValue),
      structJsonSchema fields = .ok j →
      ∃ props : List (Str × JsonValue),
        j = .obj [(("type".data), .str ("object".data)),
          (("additionalProperties".data), .bool false),
          (("properties".data), .obj props),
          (("required".data), .arr (requiredNames fields))]) ∧
    (∀ f : FieldDef,
      (f.is_optional = true → tsAbsenceMarker <:+ typescript_typename f) ∧
      (f.is_optional = false →
        (∀ nm, f.field_type = .SiblingType nm [] → '|' ∉ nm) →
        ¬ tsAbsenceMarker <:+ typescript_typename f)) := by
  constructor
  · intro fields j h
    unfold structJsonSchema at h
    cases hb : buildFieldsSchema fields ⟨[], []⟩ with
    | error e => rw [hb] at h; cases h
    | ok acc =>
      rw [hb] at h
      cases h
      obtain ⟨hreq, _⟩ := buildFieldsSchema_acc fields _ _ hb
      exact ⟨acc.properties, by rw [hreq]; simp⟩
  · intro f
    obtain ⟨o, nm, d, ft, a, an, m⟩ := f
    constructor
    · intro ho
      cases ho
      exact marker_suffix_append _
    · intro ho hwf
      cases ho
      cases a with
      | true =>
        exact not_marker_suffix_of_getLast? '>' (by decide)
          (getLast?_append_some '>' (("Array<".data) ++ typescript_base ft) (">".data) (by decide))
      | false =>
        cases ft with
        | Unknown => exact (by decide : ¬ tsAbsenceMarker <:+ ("unknown".data))
        | Tuple lst =>
          exact not_marker_suffix_of_getLast? '\x7d' (by decide)
            (getLast?_append_some '\x7d'
              (("\x7b ".data) ++ joinSep ("; ".data) (tupleTsParts lst)) (" \x7d".data)
              (by decide))
        | SiblingType snm lst =>
          cases lst with
          | nil =>
            exact not_marker_suffix_of_no_pipe snm
              (hwf snm (by simp [FieldDef.field_type]))
          | cons x xs =>
            exact not_marker_suffix_of_getLast? '>' (by decide)
              (getLast?_append_some '>'
                (snm ++ ("<".data) ++ joinSep (", ".data) (tsArgParts (x :: xs)))
                (">".data) (by decide))
        | Map k v =>
          exact not_marker_suffix_of_getLast? '>' (by decide)
            (getLast?_append_some '>'
              (("Partial<Record<".data) ++ typescript_typename k ++ (", ".data) ++
                typescript_typename v)
              (">>".data) (by decide))
        | Boolean => exact (by decide : ¬ tsAbsenceMarker <:+ ("boolean".data))
        | String => exact (by decide : ¬ tsAbsenceMarker <:+ ("string".data))
        | U8 => exact (by decide : ¬ tsAbsenceMarker <:+ ("number".data))
        | U16 => exact (by decide : ¬ tsAbsenceMarker <:+ ("number".data))
        | U32 => exact (by decide : ¬ tsAbsenceMarker <:+ ("number".data))
        | U64 => exact (by decide : ¬ tsAbsenceMarker <:+ ("number".data))
        | I8 => exact (by decide : ¬ tsAbsenceMarker <:+ ("number".data))
        | I16 => exact (by decide : ¬ tsAbsenceMarker <:+ ("number".data))
        | I32 => exact (by decide : ¬ tsAbsenceMarker <:+ ("number".data))
        | I64 => exact (by decide : ¬ tsAbsenceMarker <:+ ("number".data))
        | Usize => exact (by decide : ¬ tsAbsenceMarker <:+ ("number".data))
        | Isize => exact (by decide : ¬ tsAbsenceMarker <:+ ("number".data))
        | F32 => exact (by decide : ¬ tsAbsenceMarker <:+ ("number".data))
        | F64 => exact (by decide : ¬ tsAbsenceMarker <:+ ("number".data))
        | StringLiteral v =>
          exact not_marker_suffix_of_getLast? '"' (by decide)
            (getLast?_append_some '"' (("\"".data) ++ v) ("\"".data) (by decide))
        | ObjectId => exact (by decide : ¬ tsAbsenceMarker <:+ ("ObjectId".data))

/-- Witness for C1 at a concrete two-field record (`id: String` required,
`age: Option<u32>` optional). -/
theorem spec_c1_witness :
    (∃ props : List (Str × JsonValue),
      JsonValue.obj [(("type".data), .str ("object".data)),
        (("additionalProperties".data), .bool false),
        (("properties".data), .obj [(("id".data), typeObj ("string".data)),
          (("age".data), typeObj ("integer".data))]),
        (("required".data), .arr [.str ("id".data)])] =
      .obj [(("type".data), .str ("object".data)),
        (("additionalProperties".data), .bool false),
        (("properties".data), .obj props),
        (("required".data), .arr (requiredNames
          [.mk false ("id".data) [] .String false none none,
           .mk true ("age".data) [] .U32 false none none]))]) ∧
    tsAbsenceMarker <:+
      typescript_typename (.mk true ("age".data) [] .U32 false none none) ∧
    ¬ tsAbsenceMarker <:+
      typescript_typename (.mk false ("id".data) [] .String false none none) := by
  refine ⟨spec_c1_required_and_absence_marker.1
      [.mk false ("id".data) [] .String false none none,
       .mk true ("age".data) [] .U32 false none none] _ rfl,
    (spec_c1_required_and_absence_marker.2 _).1 rfl,
    (spec_c1_required_and_absence_marker.2 _).2 rfl ?_⟩
  intro nm h
  simp [FieldDef.field_type] at h

theorem exceptMapM_ok_length {α β : Type} {f : α → Except Str β} :
    ∀ {xs : List α} {ys : List β}, exceptMapM f xs = .ok ys → ys.length = xs.length := by
  intro xs
  induction xs with
  | nil => intro ys h; cases h; rfl
  | cons x xs ih =>
    intro ys h
    unfold exceptMapM at h
    cases hf : f x with
    | error e => rw [hf] at h; cases h
    | ok y =>
      rw [hf] at h
      cases hm : exceptMapM f xs with
      | error e => rw [hm] at h; cases h
      | ok ys2 =>
        rw [hm] at h
        cases h
        simp [ih hm]

theorem exceptMapM_ok_get {α β : Type} {f : α → Except Str β} :
    ∀ {xs : List α} {ys : List β}, exceptMapM f xs = .ok ys →
      ∀ i (h1 : i < xs.length) (h2 : i < ys.length),
        f (xs.get ⟨i, h1⟩) = .ok (ys.get ⟨i, h2⟩) := by
  intro xs
  induction xs with
  | nil => intro ys h i h1 h2; exact absurd h1 (by simp)
  | cons x xs ih =>
    intro ys h i h1 h2
    unfold exceptMapM at h
    cases hf : f x with
    | error e => rw [hf] at h; cases h
    | ok y =>
      rw [hf] at h
      cases hm : exceptMapM f xs with
      | error e => rw [hm] at h; cases h
      | ok ys2 =>
        rw [hm] at h
        cases h
        cases i with
        | zero => simpa using hf
        | succ n => exact ih hm n (by simpa using h1) (by simpa using h2)

theorem hmInsert_append {α : Type} (k : Str) (v : α) :
    ∀ m : List (Str × α), k ∉ m.map Prod.fst → hmInsert k v m = m ++ [(k, v)] := by
  intro m
  induction m with
  | nil => intro _; rfl
  | cons p rest ih =>
    intro h
    obtain ⟨k2, v2⟩ := p
    simp only [List.map_cons, List.mem_cons] at h
    push_neg at h
    unfold hmInsert
    rw [if_neg h.1]
    simp [ih h.2]

theorem hmFromList_foldl {α : Type} :
    ∀ (ps acc : List (Str × α)),
      (∀ k ∈ ps.map Prod.fst, k ∉ acc.map Prod.fst) →
      (ps.map Prod.fst).Nodup →
      ps.foldl (fun m p => hmInsert p.1 p.2 m) acc = acc ++ ps := by
  intro ps
  induction ps with
  | nil => intro acc _ _; simp
  | cons p rest ih =>
    intro acc hdisj hnodup
    obtain ⟨k, v⟩ := p
    simp only [List.foldl_cons]
    rw [hmInsert_append k v acc (hdisj k (List.mem_cons_self _ _))]
    rw [ih (acc ++ [(k, v)]) ?_ ?_]
    · simp
    · intro k2 hk2
      rw [List.map_append]
      intro hmem
      rcases List.mem_append.mp hmem with hacc | hsing
      · exact hdisj k2 (List.mem_cons_of_mem _ hk2) hacc
      · have hk2k : k2 = k := by simpa using hsing
        have hnd : k ∉ rest.map Prod.fst := by
          have h2 := hnodup
          simp only [List.map_cons, List.nodup_cons] at h2
          exact h2.1
        exact hnd (hk2k ▸ hk2)
    · have h2 := hnodup
      simp only [List.map_cons, List.nodup_cons] at h2
      exact h2.2

theorem hmFromList_of_nodup {α : Type} (ps : List (Str × α))
    (h : (ps.map Prod.fst).Nodup) : hmFromList ps = ps := by
  unfold hmFromList
  have h2 := hmFromList_foldl ps [] (fun k _ => List.not_mem_nil k) h
  simpa using h2

theorem processVariantPair_fst (rename_all : Option Str) (v : VariantInput)
    (p : Str × List FieldDef) (h : processVariantPair rename_all v = .ok p) :
    p.1 = processVariantName rename_all v := by
  unfold processVariantPair at h
  cases hm : exceptMapM (process_field rename_all) v.fields with
  | error e => rw [hm] at h; cases h
  | ok flds => rw [hm] at h; cases h; rfl

theorem variantJsonSchema_shape (tag_name value : Str) (fields : List FieldDef)
    (e : JsonValue) (h : variantJsonSchema tag_name value fields = .ok e) :
    ∃ ps rs, e = .obj [(("additionalProperties".data), .bool false),
      (("properties".data), .obj ((tag_name, tagPropJson value) :: ps)),
      (("required".data), .arr (.str tag_name :: rs))] := by
  unfold variantJsonSchema at h
  cases hb : buildFieldsSchema (fields.filter (fun f => f.name ≠ tag_name))
      ⟨[(tag_name, tagPropJson value)], [.str tag_name]⟩ with
  | error e2 => rw [hb] at h; cases h
  | ok acc =>
    rw [hb] at h
    cases h
    obtain ⟨hreq, tail, hprops⟩ := buildFieldsSchema_acc _ _ _ hb
    exact ⟨tail, requiredNames (fields.filter (fun f => f.name ≠ tag_name)),
      by rw [hprops, hreq]; rfl⟩

/-- C2 (amended): for an enum with a field-carrying variant, provided the
variants' resolved names are pairwise distinct, the generated schema is an
object whose `oneOf` has exactly one entry per variant; the i-th entry's
`required` starts with the tag field name and its tag property is
`{type: "string", const: resolved name of the i-th variant}`; with no
container tag attribute the tag field name is the literal `"type"`. -/
theorem spec_c2_amended (tag : Option Str) (rename_all : Option Str)
    (vs : List VariantInput) (j : JsonValue)
    (hplain : is_plain_enum vs = false)
    (hnodup : (vs.map (processVariantName rename_all)).Nodup)
    (hok : processEnumJsonSchema tag rename_all vs = .ok j) :
    enumTagName none = ("type".data) ∧
    ∃ entries : List JsonValue,
      j = .obj [(("type".data), .str ("object".data)),
        (("oneOf".data), .arr entries)] ∧
      entries.length = vs.length ∧
      ∀ i (h1 : i < vs.length) (h2 : i < entries.length),
        ∃ ps rs, entries.get ⟨i, h2⟩ =
          .obj [(("additionalProperties".data), .bool false),
            (("properties".data), .obj ((enumTagName tag,
              tagPropJson (processVariantName rename_all (vs.get ⟨i, h1⟩))) :: ps)),
            (("required".data), .arr (.str (enumTagName tag) :: rs))] := by
  refine ⟨rfl, ?_⟩
  unfold processEnumJsonSchema at hok
  rw [hplain] at hok
  simp only [Bool.false_eq_true, if_false] at hok
  unfold discriminatedEnumJsonSchema at hok
  cases hp : exceptMapM (processVariantPair rename_all) vs with
  | error e => rw [hp] at hok; cases hok
  | ok pairs =>
    rw [hp] at hok
    dsimp only at hok
    have hplen : pairs.length = vs.length := exceptMapM_ok_length hp
    have hkeys : pairs.map Prod.fst = vs.map (processVariantName rename_all) := by
      apply List.ext_get
      · simp [hplen]
      · intro n hn1 hn2
        simp only [List.get_eq_getElem, List.getElem_map]
        exact processVariantPair_fst rename_all _ _
          (exceptMapM_ok_get hp n (by simpa using hn2) (by simpa using hn1))
    have hpairs : hmFromList pairs = pairs := by
      apply hmFromList_of_nodup
      rw [hkeys]
      exact hnodup
    rw [hpairs] at hok
    cases he : exceptMapM (fun p => variantJsonSchema (enumTagName tag) p.1 p.2) pairs with
    | error e => rw [he] at hok; cases hok
    | ok entries =>
      rw [he] at hok
      cases hok
      have helen : entries.length = vs.length := by
        rw [exceptMapM_ok_length he, hplen]
      refine ⟨entries, rfl, helen, ?_⟩
      intro i h1 h2
      have hip : i < pairs.length := by rw [hplen]; exact h1
      have hvar := exceptMapM_ok_get he i hip h2
      have hfst : (pairs.get ⟨i, hip⟩).1 =
          processVariantName rename_all (vs.get ⟨i, h1⟩) := by
        have h0 := congrArg (fun l => l[i]?) hkeys
        simp only [List.getElem?_map] at h0
        rw [List.getElem?_eq_getElem hip, List.getElem?_eq_getElem h1] at h0
        simp only [Option.map_some'] at h0
        simpa [List.get_eq_getElem] using Option.some.inj h0
      rw [hfst] at hvar
      exact variantJsonSchema_shape _ _ _ _ hvar

/-- Counterexample to C2 as stated: under `rename_all = "lowercase"` the two
variants `Ab` (one field) and `AB` (no fields) of a discriminated enum both
resolve to the tag value `ab`; the `discriminator_field_defs` map collapses
them, so the generated `oneOf` has one entry while the enum has two
variants. -/
theorem spec_c2_counterexample :
    processEnumJsonSchema none (some ("lowercase".data))
        [⟨("Ab".data), ⟨none, false⟩,
            [⟨("x".data), .path ("String".data) .noArgs, ⟨none, false⟩,
              ⟨none, none, none⟩, none⟩]⟩,
         ⟨("AB".data), ⟨none, false⟩, []⟩] =
      .ok (.obj [(("type".data), .str ("object".data)),
        (("oneOf".data), .arr [.obj [(("additionalProperties".data), .bool false),
          (("properties".data), .obj [(("type".data), tagPropJson ("ab".data))]),
          (("required".data), .arr [.str ("type".data)])]])]) ∧
    ([JsonValue.obj [(("additionalProperties".data), .bool false),
      (("properties".data), .obj [(("type".data), tagPropJson ("ab".data))]),
      (("required".data), .arr [.str ("type".data)])]].length = 1 ∧
     ([⟨("Ab".data), ⟨none, false⟩,
          [⟨("x".data), .path ("String".data) .noArgs, ⟨none, false⟩,
            ⟨none, none, none⟩, none⟩]⟩,
       ⟨("AB".data), ⟨none, false⟩, []⟩] : List VariantInput).length = 2) :=
  ⟨rfl, rfl, rfl⟩

/-- Witness for C2 (amended) at a concrete two-variant enum with distinct
resolved names. -/
theorem spec_c2_witness :
    enumTagName none = ("type".data) ∧
    ∃ entries : List JsonValue,
      JsonValue.obj [(("type".data), .str ("object".data)),
        (("oneOf".data), .arr
          [.obj [(("additionalProperties".data), .bool false),
            (("properties".data), .obj [(("type".data), tagPropJson ("A".data))]),
            (("required".data), .arr [.str ("type".data)])],
           .obj [(("additionalProperties".data), .bool false),
            (("properties".data), .obj [(("type".data), tagPropJson ("B".data)),
              (("x".data), typeObj ("string".data))]),
            (("required".data), .arr [.str ("type".data), .str ("x".data)])]])] =
      .obj [(("type".data), .str ("object".data)), (("oneOf".data), .arr entries)] ∧
      entries.length =
        ([⟨("A".data), ⟨none, false⟩, []⟩,
          ⟨("B".data), ⟨none, false⟩,
            [⟨("x".data), .path ("String".data) .noArgs, ⟨none, false⟩,
              ⟨none, none, none⟩, none⟩]⟩] : List VariantInput).length ∧
      ∀ i (h1 : i < ([⟨("A".data), ⟨none, false⟩, []⟩,
          ⟨("B".data), ⟨none, false⟩,
            [⟨("x".data), .path ("String".data) .noArgs, ⟨none, false⟩,
              ⟨none, none, none⟩, none⟩]⟩] : List VariantInput).length)
          (h2 : i < entries.length),
        ∃ ps rs, entries.get ⟨i, h2⟩ =
          .obj [(("additionalProperties".data), .bool false),
            (("properties".data), .obj ((enumTagName none,
              tagPropJson (processVariantName none
                (([⟨("A".data), ⟨none, false⟩, []⟩,
                  ⟨("B".data), ⟨none, false⟩,
                    [⟨("x".data), .path ("String".data) .noArgs, ⟨none, false⟩,
                      ⟨none, none, none⟩, none⟩]⟩] : List VariantInput).get ⟨i, h1⟩))) :: ps)),
            (("required".data), .arr (.str (enumTagName none) :: rs))] :=
  spec_c2_amended none none
    [⟨("A".data), ⟨none, false⟩, []⟩,
     ⟨("B".data), ⟨none, false⟩,
        [⟨("x".data), .path ("String".data) .noArgs, ⟨none, false⟩,
          ⟨none, none, none⟩, none⟩]⟩] _
    rfl (by decide) rfl

/-- Counterexample to C3 as stated: for a bare `ObjectId` field the emitted
JSON Schema is the one-field `$oid` wrapper whose string member carries no
`pattern` constraint anywhere, and the static-type text is the bare name
`ObjectId`, not a one-field object with a hex pattern. -/
theorem spec_c3_counterexample :
    fieldPropertyValue (.mk false ("id".data) [] .ObjectId false none none) =
      .ok object_id_json_schema ∧
    JsonValue.hasKeyDeep ("pattern".data) object_id_json_schema = false ∧
    typescript_typename (.mk false ("id".data) [] .ObjectId false none none) =
      ("ObjectId".data) :=
  ⟨rfl, by decide, rfl⟩

/-- C3 (amended): a field whose raw type name is exactly `ObjectId` renders,
in the runtime validator, as the one-field `$oid` wrapper with the
24-hex-character case-insensitive pattern, placed inside the array/optional
wraps; in the JSON Schema as the one-field `$oid` wrapper whose string is
unconstrained (no pattern, never a bare string); and in the static type as
the bare external name `ObjectId`.  The same wrapper shapes appear when the
type occurs as a string-keyed map value. -/
theorem spec_c3_amended :
    (∀ (o a : Bool) (nm d : Str) (an : Option Nat),
      zod_type (.mk o nm d .ObjectId a an none) =
        wrap_with_optional_if_needed
          (wrap_with_array_if_needed object_id_zod_schema a) o ∧
      objectIdHexPattern <:+: zod_type (.mk o nm d .ObjectId a an none) ∧
      typescript_typename (.mk o nm d .ObjectId a an none) =
        (if o then (if a then ("Array<ObjectId>".data) else ("ObjectId".data)) ++
            (" | undefined".data)
          else (if a then ("Array<ObjectId>".data) else ("ObjectId".data))) ∧
      fieldPropertyValue (.mk o nm d .ObjectId a an none) =
        .ok (if a then arrayOf object_id_json_schema else object_id_json_schema) ∧
      JsonValue.hasKeyDeep ("pattern".data)
        (if a then arrayOf object_id_json_schema else object_id_json_schema) = false) ∧
    (∀ (b ko vo ka : Bool) (kn kd vn vd : Str) (kan van : Option Nat)
        (o2 a2 : Bool) (nm2 d2 : Str) (an2 : Option Nat),
      fieldPropertyValue (.mk o2 nm2 d2
          (.Map (.mk ko kn kd .String ka kan none) (.mk vo vn vd .ObjectId b van none))
          a2 an2 none) =
        .ok (mapWithValues (if b then arrayOf object_id_json_schema
          else object_id_json_schema))) := by
  constructor
  · intro o a nm d an
    have hbase : objectIdHexPattern <:+: object_id_zod_schema := by decide
    refine ⟨?_, ?_, ?_, ?_, ?_⟩
    · cases o <;> cases a <;> rfl
    · cases o <;> cases a
      · exact hbase
      · show objectIdHexPattern <:+:
          ("z.array(".data) ++ object_id_zod_schema ++ (")".data)
        exact hbase.trans (List.infix_append _ _ _)
      · show objectIdHexPattern <:+:
          object_id_zod_schema ++ (".or(z.undefined())".data)
        exact hbase.trans (List.prefix_append _ _).isInfix
      · show objectIdHexPattern <:+:
          (("z.array(".data) ++ object_id_zod_schema ++ (")".data)) ++
            (".or(z.undefined())".data)
        exact (hbase.trans (List.infix_append _ _ _)).trans
          (List.prefix_append _ _).isInfix
    · cases o <;> cases a <;> rfl
    · cases a <;> rfl
    · cases a <;> decide
  · intro b ko vo ka kn kd vn vd kan van o2 a2 nm2 d2 an2
    cases b <;> rfl

/-- Counterexample to C4 as stated: resolving `Option<Vec<String>>` and
`Vec<Option<String>>` produces the same `FieldDef` (both collapse to
`is_array = true`, `is_optional = true` over the same shape), so the two
compositions are identified, not distinct. -/
theorem spec_c4_counterexample :
    get_field_def ("f".data)
        (.path ("Option".data) (.angleBracketed
          [.tp (.path ("Vec".data)
            (.angleBracketed [.tp (.path ("String".data) .noArgs)]))])) [] =
      get_field_def ("f".data)
        (.path ("Vec".data) (.angleBracketed
          [.tp (.path ("Option".data)
            (.angleBracketed [.tp (.path ("String".data) .noArgs)]))])) [] ∧
    get_field_def ("f".data)
        (.path ("Option".data) (.angleBracketed
          [.tp (.path ("Vec".data)
            (.angleBracketed [.tp (.path ("String".data) .noArgs)]))])) [] =
      .ok (.mk true ("f".data) [] .String true none none) :=
  ⟨rfl, rfl⟩

/-- C4 (amended): for every inner descriptor `t`, resolving
`Option<Vec<t>>` and `Vec<Option<t>>` yields the same `FieldDef`: the
`is_array` and `is_optional` modifiers are independent flags set by
order-insensitive unwraps, so the two compositions are identified by type
resolution rather than kept distinct. -/
theorem spec_c4_amended (n d : Str) (t : RustType) :
    get_field_def n (.path ("Option".data) (.angleBracketed
        [.tp (.path ("Vec".data) (.angleBracketed [.tp t]))])) d =
      get_field_def n (.path ("Vec".data) (.angleBracketed
        [.tp (.path ("Option".data) (.angleBracketed [.tp t]))])) d := by
  cases ht : get_field_def ([]) t ([]) with
  | error e =>
    simp [get_field_def, getFieldDefArgs, ht]
  | ok d0 =>
    obtain ⟨o0, n0, dd0, ft0, a0, an0, m0⟩ := d0
    simp [get_field_def, getFieldDefArgs, ht, safe_type_name,
      FieldDef.withName, FieldDef.withIsArray, FieldDef.withIsOptional]

mutual

theorem gfd_error_char : ∀ (ty : RustType) (n d e : Str),
    get_field_def n ty d = .error e →
    e = unsupportedFieldTypeMsg ∧ rtHasParen ty = true
  | .path segName .noArgs, n, d, e => fun h => absurd h (by simp [get_field_def])
  | .path segName .parenthesized, n, d, e => fun h => by
      simp only [get_field_def] at h
      exact ⟨(Except.error.inj h).symm, rfl⟩
  | .path segName (.angleBracketed gs), n, d, e => fun h => by
      simp only [get_field_def] at h
      cases hga : getFieldDefArgs gs with
      | error e2 =>
        rw [hga] at h
        dsimp only at h
        obtain ⟨he, hg⟩ := gfdArgs_error_char gs e2 hga
        have he2 : e2 = e := Except.error.inj h
        exact ⟨he2 ▸ he, by simpa [rtHasParen, paHasParen] using hg⟩
      | ok arg_types =>
        rw [hga] at h
        dsimp only at h
        rcases arg_types with _ | ⟨a, _ | ⟨b, _ | ⟨c, rest⟩⟩⟩ <;>
          (repeat' split at h) <;> simp at h
  | .reference elem, n, d, e => fun h => by
      simp only [get_field_def] at h
      obtain ⟨he, hg⟩ := gfd_error_char elem n d e h
      exact ⟨he, by simpa [rtHasParen] using hg⟩
  | .array elem, n, d, e => fun h => by
      simp only [get_field_def] at h
      cases hi : get_field_def n elem d with
      | error e2 =>
        rw [hi] at h
        dsimp only at h
        obtain ⟨he, hg⟩ := gfd_error_char elem n d e2 hi
        have he2 : e2 = e := Except.error.inj h
        exact ⟨he2 ▸ he, by simpa [rtHasParen] using hg⟩
      | ok d0 => rw [hi] at h; simp at h
  | .slice elem, n, d, e => fun h => by
      simp only [get_field_def] at h
      cases hi : get_field_def n elem d with
      | error e2 =>
        rw [hi] at h
        dsimp only at h
        obtain ⟨he, hg⟩ := gfd_error_char elem n d e2 hi
        have he2 : e2 = e := Except.error.inj h
        exact ⟨he2 ▸ he, by simpa [rtHasParen] using hg⟩
      | ok d0 => rw [hi] at h; simp at h
  | .tuple elems, n, d, e => fun h => by
      simp only [get_field_def] at h
      cases hi : getFieldDefTuple 0 d elems with
      | error e2 =>
        rw [hi] at h
        dsimp only at h
        obtain ⟨he, hg⟩ := gfdTuple_error_char elems 0 d e2 hi
        have he2 : e2 = e := Except.error.inj h
        exact ⟨he2 ▸ he, by simpa [rtHasParen] using hg⟩
      | ok els => rw [hi] at h; simp at h
  | .other, n, d, e => fun h => absurd h (by simp [get_field_def])

theorem gfdArgs_error_char : ∀ (gs : List GenericArg) (e : Str),
    getFieldDefArgs gs = .error e →
    e = unsupportedFieldTypeMsg ∧ gasHasParen gs = true
  | [], e => fun h => absurd h (by simp [getFieldDefArgs])
  | .lifetime :: rest, e => fun h => by
      simp only [getFieldDefArgs] at h
      obtain ⟨he, hg⟩ := gfdArgs_error_char rest e h
      exact ⟨he, by simpa [gasHasParen] using hg⟩
  | .tp t :: rest, e => fun h => by
      simp only [getFieldDefArgs] at h
      cases hi : get_field_def [] t [] with
      | error e2 =>
        rw [hi] at h
        dsimp only at h
        obtain ⟨he, hg⟩ := gfd_error_char t [] [] e2 hi
        have he2 : e2 = e := Except.error.inj h
        exact ⟨he2 ▸ he, by simp [gasHasParen, hg]⟩
      | ok d0 =>
        rw [hi] at h
        dsimp only at h
        cases hr : getFieldDefArgs rest with
        | error e2 =>
          rw [hr] at h
          dsimp only at h
          obtain ⟨he, hg⟩ := gfdArgs_error_char rest e2 hr
          have he2 : e2 = e := Except.error.inj h
          exact ⟨he2 ▸ he, by simp [gasHasParen, hg]⟩
        | ok ds => rw [hr] at h; simp at h

theorem gfdTuple_error_char : ∀ (ts : List RustType) (i : Nat) (d e : Str),
    getFieldDefTuple i d ts = .error e →
    e = unsupportedFieldTypeMsg ∧ rtsHasParen ts = true
  | [], i, d, e => fun h => absurd h (by simp [getFieldDefTuple])
  | t :: rest, i, d, e => fun h => by
      simp only [getFieldDefTuple] at h
      cases hi : get_field_def (("element_".data) ++ nat_to_str i) t d with
      | error e2 =>
        rw [hi] at h
        dsimp only at h
        obtain ⟨he, hg⟩ := gfd_error_char t _ d e2 hi
        have he2 : e2 = e := Except.error.inj h
        exact ⟨he2 ▸ he, by simp [rtsHasParen, hg]⟩
      | ok d0 =>
        rw [hi] at h
        dsimp only at h
        cases hr : getFieldDefTuple (i + 1) d rest with
        | error e2 =>
          rw [hr] at h
          dsimp only at h
          obtain ⟨he, hg⟩ := gfdTuple_error_char rest (i + 1) d e2 hr
          have he2 : e2 = e := Except.error.inj h
          exact ⟨he2 ▸ he, by simp [rtsHasParen, hg]⟩
        | ok ds => rw [hr] at h; simp at h

end

/-- Counterexample to C5 as stated: a three-argument generic (`Triple<u8,
u16, u32>`) is outside the claimed closed supported set, yet type
resolution does not fail — it silently continues with a permissive
`SiblingType` fallback; likewise an unrecognized non-path shape resolves to
the permissive `Unknown` shape instead of aborting. -/
theorem spec_c5_counterexample :
    get_field_def ("my_field".data)
        (.path ("Triple".data) (.angleBracketed
          [.tp (.path ("u8".data) .noArgs), .tp (.path ("u16".data) .noArgs),
           .tp (.path ("u32".data) .noArgs)])) [] =
      .ok (.mk false ("my_field".data) []
        (.SiblingType ("Triple".data)
          [.mk false [] [] .U8 false none none, .mk false [] [] .U16 false none none,
           .mk false [] [] .U32 false none none]) false none none) ∧
    get_field_def ("my_field".data) .other [] =
      .ok (.mk false ("my_field".data) [] .Unknown false none none) :=
  ⟨rfl, rfl⟩

/-- C5 (amended): type resolution aborts only on parenthesized path
arguments, and then with the fixed message `Unsupported field type`, which
reports neither the offending raw type text nor the enclosing field name;
every descriptor free of parenthesized arguments resolves successfully —
other generic arities continue permissively as `SiblingType` references and
unrecognized non-path shapes continue permissively as `Unknown`. -/
theorem spec_c5_amended :
    (∀ (n d segName : Str),
      get_field_def n (.path segName .parenthesized) d =
        .error unsupportedFieldTypeMsg) ∧
    (∀ (ty : RustType) (n d e : Str), get_field_def n ty d = .error e →
      e = unsupportedFieldTypeMsg ∧ rtHasParen ty = true) ∧
    (∀ (ty : RustType) (n d : Str), rtHasParen ty = false →
      isOkE (get_field_def n ty d) = true) ∧
    (∀ (n d : Str), get_field_def n .other d =
      .ok (.mk false (safe_type_name n) d .Unknown false none none)) := by
  refine ⟨fun n d segName => rfl, fun ty n d e h => gfd_error_char ty n d e h,
    ?_, fun n d => rfl⟩
  intro ty n d hnp
  cases hg : get_field_def n ty d with
  | ok fd => rfl
  | error e =>
    obtain ⟨_, hpar⟩ := gfd_error_char ty n d e hg
    rw [hnp] at hpar
    cases hpar

/-- Witness for C5 (amended) at concrete inputs: a parenthesized descriptor
errors with the fixed message, and a paren-free three-argument generic
resolves successfully. -/
theorem spec_c5_witness :
    get_field_def ("f".data) (.path ("FnTy".data) .parenthesized) [] =
      .error unsupportedFieldTypeMsg ∧
    (unsupportedFieldTypeMsg = unsupportedFieldTypeMsg ∧
      rtHasParen (.path ("FnTy".data) .parenthesized) = true) ∧
    isOkE (get_field_def ("f".data)
      (.path ("Triple".data) (.angleBracketed
        [.tp (.path ("u8".data) .noArgs), .tp (.path ("u16".data) .noArgs),
         .tp (.path ("u32".data) .noArgs)])) []) = true :=
  ⟨spec_c5_amended.1 ("f".data) [] ("FnTy".data),
   spec_c5_amended.2.1 (.path ("FnTy".data) .parenthesized) ("f".data) [] _ rfl,
   spec_c5_amended.2.2.1
     (.path ("Triple".data) (.angleBracketed
       [.tp (.path ("u8".data) .noArgs), .tp (.path ("u16".data) .noArgs),
        .tp (.path ("u32".data) .noArgs)])) ("f".data) [] (by decide)⟩

/-- Counterexample to C6 as stated: under the `PascalCase` and `kebab-case`
container conventions, name resolution returns `user_id` unchanged instead
of the claimed `UserId` / `user-id`. -/
theorem spec_c6_counterexample :
    get_final_name ("user_id".data) none (some ("PascalCase".data)) =
      ("user_id".data) ∧
    ("user_id".data) ≠ ("UserId".data) ∧
    get_final_name ("user_id".data) none (some ("kebab-case".data)) =
      ("user_id".data) ∧
    ("user_id".data) ≠ ("user-id".data) := by
  refine ⟨rfl, by decide, rfl, by decide⟩

/-- C6 (amended): the emission pipeline's name resolution implements only
two of the seven conventions — `camelCase` (via `snake_to_camel`, which
also lower-cases the first character) and `lowercase`; `PascalCase`,
`snake_case`, `SCREAMING_SNAKE_CASE`, `kebab-case` and `UPPERCASE` (and the
absence of a convention) all return the raw name unchanged.  The full
seven-convention table lives only in the test-gated helper
`apply_rename_all`, where PascalCase upper-cases the camel-case result's
first character and kebab-case maps underscores to hyphens. -/
theorem spec_c6_amended :
    (∀ n : Str, get_final_name n none (some ("camelCase".data)) = snake_to_camel n) ∧
    (∀ n : Str, get_final_name n none (some ("lowercase".data)) = n.map Char.toLower) ∧
    (∀ n : Str, get_final_name n none (some ("PascalCase".data)) = n) ∧
    (∀ n : Str, get_final_name n none (some ("snake_case".data)) = n) ∧
    (∀ n : Str, get_final_name n none (some ("SCREAMING_SNAKE_CASE".data)) = n) ∧
    (∀ n : Str, get_final_name n none (some ("kebab-case".data)) = n) ∧
    (∀ n : Str, get_final_name n none (some ("UPPERCASE".data)) = n) ∧
    (∀ n : Str, get_final_name n none none = n) ∧
    apply_rename_all ("user_id".data) (some ("PascalCase".data)) = ("UserId".data) ∧
    apply_rename_all ("user_id".data) (some ("kebab-case".data)) = ("user-id".data) :=
  ⟨fun n => rfl, fun n => rfl, fun n => rfl, fun n => rfl, fun n => rfl,
   fun n => rfl, fun n => rfl, fun n => rfl, by decide, by decide⟩

/-- C7: renaming is stable — raw `user_id` under the `camelCase` container
convention resolves to `userId`, and an explicit field override
`emailAddress` is returned verbatim for every raw name and every container
convention. -/
theorem spec_c7_rename_stability :
    get_final_name ("user_id".data) none (some ("camelCase".data)) =
      ("userId".data) ∧
    ∀ (raw : Str) (rename_all : Option Str),
      get_final_name raw (some ("emailAddress".data)) rename_all =
        ("emailAddress".data) :=
  ⟨by decide, fun raw rename_all => rfl⟩

/-- C8: a `literal` override forces the field's effective shape to
`StringLiteral` of the override value regardless of the declared type, and
when a `min_length` override is simultaneously set the field's JSON Schema
is `{type: "string", const: value}` with no `minLength` keyword anywhere. -/
theorem spec_c8_literal_precedence (rename_all : Option Str) (field : FieldInput)
    (l : Str) (fd : FieldDef)
    (hlit : field.msp.literal = some l)
    (hok : process_field rename_all field = .ok fd) :
    fd.field_type = .StringLiteral l ∧
    (fd.is_array = false →
      fieldPropertyValue fd =
        .ok (.obj [(("type".data), .str ("string".data)), (("const".data), .str l)]) ∧
      JsonValue.hasKeyDeep ("minLength".data)
        (.obj [(("type".data), .str ("string".data)), (("const".data), .str l)]) =
          false) := by
  have hft : fd.field_type = .StringLiteral l := by
    unfold process_field at hok
    dsimp only at hok
    cases hg : get_field_def (get_final_name field.ident field.serde.rename rename_all)
        field.ty (fieldDocsOf field.docsAttr
          (get_final_name field.ident field.serde.rename rename_all)) with
    | error e => rw [hg] at hok; cases hok
    | ok fd0 =>
      rw [hg] at hok
      obtain ⟨o0, n0, d0, ft0, a0, an0, m0⟩ := fd0
      simp only [hlit, Option.isSome_some, Bool.or_true, if_pos,
        FieldDef.withMsp, FieldDef.model_schema_prop_meta, Option.bind_some,
        FieldDef.withFieldType] at hok
      cases hok
      simp [hlit, FieldDef.field_type]
  refine ⟨hft, fun ha => ?_⟩
  obtain ⟨o, nm, dd, ft, a, an, m⟩ := fd
  have hft2 : ft = .StringLiteral l := hft
  have ha2 : a = false := ha
  subst hft2 ha2
  constructor
  · rfl
  · simp [JsonValue.hasKeyDeep, jsonObjHasKey, jsonArrHasKey]

/-- Witness for C8 at a concrete field: declared `String`, literal override
`fixed`, simultaneous `minLength = 10`. -/
theorem spec_c8_witness :
    (FieldDef.mk false ("fixed_field".data)
        (fieldDocsOf none ("fixed_field".data))
        (.StringLiteral ("fixed".data)) false none
        (some ⟨some ("String".data), some ("fixed".data), some 10⟩)).field_type =
      .StringLiteral ("fixed".data) ∧
    ((FieldDef.mk false ("fixed_field".data)
        (fieldDocsOf none ("fixed_field".data))
        (.StringLiteral ("fixed".data)) false none
        (some ⟨some ("String".data), some ("fixed".data), some 10⟩)).is_array = false →
      fieldPropertyValue (FieldDef.mk false ("fixed_field".data)
        (fieldDocsOf none ("fixed_field".data))
        (.StringLiteral ("fixed".data)) false none
        (some ⟨some ("String".data), some ("fixed".data), some 10⟩)) =
        .ok (.obj [(("type".data), .str ("string".data)),
          (("const".data), .str ("fixed".data))]) ∧
      JsonValue.hasKeyDeep ("minLength".data)
        (.obj [(("type".data), .str ("string".data)),
          (("const".data), .str ("fixed".data))]) = false) :=
  spec_c8_literal_precedence none
    ⟨("fixed_field".data), .path ("String".data) .noArgs, ⟨none, false⟩,
      ⟨some ("String".data), some ("fixed".data), some 10⟩, none⟩
    ("fixed".data) _ rfl rfl

/-- C9: for a field of effective shape string with a `min_length` override
of `n` (no literal override is possible here since a literal would have
forced the `StringLiteral` shape), the runtime validator is exactly the
base string validator followed by `.min(n)`, with the array and optional
wraps applied outside it. -/
theorem spec_c9_min_length_placement (f : FieldDef) (n : Nat)
    (hs : f.field_type = .String)
    (hm : f.minLength = some n) :
    zod_type f =
      wrap_with_optional_if_needed
        (wrap_with_array_if_needed
          (("z.string().min(".data) ++ nat_to_str n ++ (")".data)) f.is_array)
        f.is_optional := by
  obtain ⟨o, nm, d, ft, a, an, m⟩ := f
  have hs2 : ft = .String := hs
  subst hs2
  simp only [FieldDef.minLength, FieldDef.model_schema_prop_meta] at hm
  unfold zod_type
  simp [zod_base, hm, FieldDef.is_array, FieldDef.is_optional]

/-- Witness for C9 at a concrete optional string field with `minLength = 3`. -/
theorem spec_c9_witness :
    zod_type (.mk true ("nickname".data) [] .String false none
        (some ⟨some ("String".data), none, some 3⟩)) =
      wrap_with_optional_if_needed
        (wrap_with_array_if_needed
          (("z.string().min(".data) ++ nat_to_str 3 ++ (")".data))
          (FieldDef.mk true ("nickname".data) [] .String false none
            (some ⟨some ("String".data), none, some 3⟩)).is_array)
        (FieldDef.mk true ("nickname".data) [] .String false none
          (some ⟨some ("String".data), none, some 3⟩)).is_optional :=
  spec_c9_min_length_placement
    (.mk true ("nickname".data) [] .String false none
      (some ⟨some ("String".data), none, some 3⟩)) 3 rfl rfl

/-- C10: the parsed `skip` attribute never influences emission — the
processed field definition, and with it the static-type text, the runtime
validator text and the JSON-Schema property, are identical whether the
field's serde attributes set `skip` (to any value) or not. -/
theorem spec_c10_skip_no_effect (rename_all : Option Str) (ident : Str)
    (ty : RustType) (rename : Option Str) (sk : Bool)
    (msp : ModelSchemaPropMeta) (docsAttr : Option (List Str)) :
    process_field rename_all ⟨ident, ty, ⟨rename, sk⟩, msp, docsAttr⟩ =
      process_field rename_all ⟨ident, ty, ⟨rename, false⟩, msp, docsAttr⟩ ∧
    (process_field rename_all ⟨ident, ty, ⟨rename, sk⟩, msp, docsAttr⟩).map
        typescript_typename =
      (process_field rename_all ⟨ident, ty, ⟨rename, false⟩, msp, docsAttr⟩).map
        typescript_typename ∧
    (process_field rename_all ⟨ident, ty, ⟨rename, sk⟩, msp, docsAttr⟩).map
        zod_type =
      (process_field rename_all ⟨ident, ty, ⟨rename, false⟩, msp, docsAttr⟩).map
        zod_type ∧
    (process_field rename_all ⟨ident, ty, ⟨rename, sk⟩, msp, docsAttr⟩).bind
        fieldPropertyValue =
      (process_field rename_all ⟨ident, ty, ⟨rename, false⟩, msp, docsAttr⟩).bind
        fieldPropertyValue :=
  ⟨rfl, rfl, rfl, rfl⟩
